import Mathlib

/-!
Shallow embedding of the CHIP-8 interpreter core of `src/emulator.rs`.

Conventions of the embedding:

* Machine integers are `Nat` with an explicit reduction (`% 256`, `% 65536`)
  exactly where the Rust code performs wrapping 8- or 16-bit arithmetic.
* Rust's bounds-checked slice indexing `self.mem[idx]` panics when the index
  is at or beyond 4096; that panic, and the panicking `unwrap` of `Vec::pop`
  on an empty call stack, are fatal: they abort the interpreter and propagate
  to the caller.  They are modelled as the `EmuError` values carried in
  `Except`; an unimplemented instruction, which the source merely logs with
  `eprintln!` before continuing, is by contrast an ordinary `.ok` result.
* The register file and memory are total functions `Nat → Nat`; every index
  actually used by the interpreter is produced by a 4-bit field of the decoded
  instruction (registers) or is bounds-checked first (memory).
* The byte stream produced by the external `rand::random::<u8>()` calls of
  `op_rng` is modelled as an explicit list `rng` carried in the machine state;
  each `Cxnn` consumes one byte from its front.
-/

/-- Run state of the machine, `RunState` in the source. -/
inductive RunState where
  | NoROM : RunState
  | Running : RunState
  | Paused : RunState
deriving DecidableEq

/-- Fatal conditions of the interpreter: an out-of-range memory index
(Rust's bounds-check panic) and `00EE` on an empty call stack
(the `unwrap` panic in `op_ret`). -/
inductive EmuError where
  | addrOutOfRange : EmuError
  | stackUnderflow : EmuError
deriving DecidableEq

/-- The machine state, mirroring `struct Emulator` field by field; `rng` is
appended to model the stream of external random bytes. -/
structure Emulator where
  maxFps : Int
  cpf : Int
  shiftSwap : Bool
  complexJump : Bool
  state : RunState
  frameCount : Nat
  mem : Nat → Nat
  display : Nat → Nat → Nat
  pc : Nat
  regI : Nat
  stack : List Nat
  delayTimer : Nat
  soundTimer : Nat
  regs : Nat → Nat
  key : Option Nat
  rng : List Nat

/-- Pointwise update of a byte store (register file or memory). -/
def upd (r : Nat → Nat) (i v : Nat) : Nat → Nat :=
  fun j => if j = i then v else r j

/-- Pointwise update of one framebuffer pixel. -/
def upd2 (d : Nat → Nat → Nat) (i j v : Nat) : Nat → Nat → Nat :=
  fun i' j' => if i' = i ∧ j' = j then v else d i' j'

/-- The `MEM_OFFSET` constant of the source (`512`): the load address of the
program and the initial program counter. -/
def MEM_OFFSET : Nat := 512

/-- The 80-byte `FONTSET` glyph table of the source. -/
def FONTSET : List Nat :=
  [0xF0, 0x90, 0x90, 0x90, 0xF0,
   0x20, 0x60, 0x20, 0x20, 0x70,
   0xF0, 0x10, 0xF0, 0x80, 0xF0,
   0xF0, 0x10, 0xF0, 0x10, 0xF0,
   0x90, 0x90, 0xF0, 0x10, 0x10,
   0xF0, 0x80, 0xF0, 0x10, 0xF0,
   0xF0, 0x80, 0xF0, 0x90, 0xF0,
   0xF0, 0x10, 0x20, 0x40, 0x40,
   0xF0, 0x90, 0xF0, 0x90, 0xF0,
   0xF0, 0x90, 0xF0, 0x10, 0xF0,
   0xF0, 0x90, 0xF0, 0x90, 0x90,
   0xE0, 0x90, 0xE0, 0x90, 0xE0,
   0xF0, 0x80, 0x80, 0x80, 0xF0,
   0xE0, 0x90, 0x90, 0x90, 0xE0,
   0xF0, 0x80, 0xF0, 0x80, 0xF0,
   0xF0, 0x80, 0xF0, 0x80, 0x80]

/-- The `load_font` method: copy `FONTSET` into bytes `[0x050, 0x0A0)`. -/
def loadFont (e : Emulator) : Emulator :=
  { e with mem := fun a => if 0x050 ≤ a ∧ a < 0x0A0 then FONTSET.getD (a - 0x050) 0 else e.mem a }

/-- Checked memory read: `self.mem[a]`, with the out-of-bounds panic as an error. -/
def memRead (m : Nat → Nat) (a : Nat) : Except EmuError Nat :=
  if a < 4096 then .ok (m a) else .error .addrOutOfRange

/-- Checked memory write: `self.mem[a] = v`, with the out-of-bounds panic as an error. -/
def memWrite (m : Nat → Nat) (a v : Nat) : Except EmuError (Nat → Nat) :=
  if a < 4096 then .ok (upd m a v) else .error .addrOutOfRange

/-- The `curr_inst` method: fetch two consecutive bytes at the program counter
and combine them big-endian.  `self.pc + 1` is 16-bit arithmetic. -/
def currInst (e : Emulator) : Except EmuError Nat :=
  match memRead e.mem e.pc with
  | .error err => .error err
  | .ok hi =>
    match memRead e.mem ((e.pc + 1) % 65536) with
    | .error err => .error err
    | .ok lo => .ok ((hi <<< 8) ||| lo)

/-- Handler `op_clear_screen` (00E0). -/
def opClearScreen (e : Emulator) : Emulator :=
  { e with display := fun _ _ => 0 }

/-- Handler `op_jump` (1nnn). -/
def opJump (e : Emulator) (address : Nat) : Emulator :=
  { e with pc := address }

/-- Handler `op_subroutine` (2nnn): push the current program counter, then jump.
`Vec::push`/`Vec::pop` at the back of the vector are modelled as cons/uncons
at the front of the list. -/
def opSubroutine (e : Emulator) (address : Nat) : Emulator :=
  { e with stack := e.pc :: e.stack, pc := address }

/-- Handler `op_ret` (00EE): pop the return address; `unwrap` on the empty stack panics. -/
def opRet (e : Emulator) : Except EmuError Emulator :=
  match e.stack with
  | [] => .error .stackUnderflow
  | a :: rest => .ok { e with pc := a, stack := rest }

/-- Handler `op_eq_skip` (3xnn). -/
def opEqSkip (e : Emulator) (reg val : Nat) : Emulator :=
  if e.regs reg = val then { e with pc := (e.pc + 2) % 65536 } else e

/-- Handler `op_neq_skip` (4xnn). -/
def opNeqSkip (e : Emulator) (reg val : Nat) : Emulator :=
  if e.regs reg ≠ val then { e with pc := (e.pc + 2) % 65536 } else e

/-- Handler `op_req_skip` (5xy0). -/
def opReqSkip (e : Emulator) (regX regY : Nat) : Emulator :=
  if e.regs regX = e.regs regY then { e with pc := (e.pc + 2) % 65536 } else e

/-- Handler `op_rneq_skip` (9xy0). -/
def opRneqSkip (e : Emulator) (regX regY : Nat) : Emulator :=
  if e.regs regX ≠ e.regs regY then { e with pc := (e.pc + 2) % 65536 } else e

/-- Handler `op_set_reg` (6xnn). -/
def opSetReg (e : Emulator) (reg val : Nat) : Emulator :=
  { e with regs := upd e.regs reg val }

/-- Handler `op_add_reg` (7xnn): `wrapping_add` on `u8`. -/
def opAddReg (e : Emulator) (reg val : Nat) : Emulator :=
  { e with regs := upd e.regs reg ((e.regs reg + val) % 256) }

/-- Handler `op_set` (8xy0). -/
def opSet (e : Emulator) (regX regY : Nat) : Emulator :=
  { e with regs := upd e.regs regX (e.regs regY) }

/-- Handler `op_or` (8xy1). -/
def opOr (e : Emulator) (regX regY : Nat) : Emulator :=
  { e with regs := upd e.regs regX (e.regs regX ||| e.regs regY) }

/-- Handler `op_and` (8xy2). -/
def opAnd (e : Emulator) (regX regY : Nat) : Emulator :=
  { e with regs := upd e.regs regX (e.regs regX &&& e.regs regY) }

/-- Handler `op_xor` (8xy3). -/
def opXor (e : Emulator) (regX regY : Nat) : Emulator :=
  { e with regs := upd e.regs regX (e.regs regX ^^^ e.regs regY) }

/-- Handler `op_add` (8xy4): `overflowing_add` on `u8`, value written to `Vx` first,
then the carry written to register 15. -/
def opAdd (e : Emulator) (regX regY : Nat) : Emulator :=
  let val := (e.regs regX + e.regs regY) % 256
  let carry : Nat := if 256 ≤ e.regs regX + e.regs regY then 1 else 0
  { e with regs := upd (upd e.regs regX val) 15 carry }

/-- Handler `op_sub` (8xy5): `overflowing_sub` on `u8`; register 15 gets 0 on borrow,
1 otherwise. -/
def opSub (e : Emulator) (regX regY : Nat) : Emulator :=
  let val := (e.regs regX + 256 - e.regs regY % 256) % 256
  let flag : Nat := if e.regs regX < e.regs regY then 0 else 1
  { e with regs := upd (upd e.regs regX val) 15 flag }

/-- Handler `op_rsub` (8xy7): `checked_sub` of `Vy - Vx`; on `Some` the difference is
written to `Vx` and then register 15 is cleared, on `None` only register 15
is set to 1. -/
def opRsub (e : Emulator) (regX regY : Nat) : Emulator :=
  if e.regs regX ≤ e.regs regY then
    { e with regs := upd (upd e.regs regX (e.regs regY - e.regs regX)) 15 0 }
  else
    { e with regs := upd e.regs 15 1 }

/-- Handler `op_shift_r` (8xy6): optional `Vx := Vy` swap, then `regs[15] := Vx & 1`,
then `Vx >>= 1`; each read sees the preceding writes, as in the source. -/
def opShiftR (e : Emulator) (regX regY : Nat) (swap : Bool) : Emulator :=
  let r0 := if swap then upd e.regs regX (e.regs regY) else e.regs
  let r1 := upd r0 15 (r0 regX &&& 1)
  { e with regs := upd r1 regX (r1 regX >>> 1) }

/-- Handler `op_shift_l` (8xyE): optional swap, `regs[15] := (Vx & 0x80) >> 7`, then
`Vx <<= 1` which keeps the low 8 bits. -/
def opShiftL (e : Emulator) (regX regY : Nat) (swap : Bool) : Emulator :=
  let r0 := if swap then upd e.regs regX (e.regs regY) else e.regs
  let r1 := upd r0 15 ((r0 regX &&& 0x80) >>> 7)
  { e with regs := upd r1 regX ((r1 regX <<< 1) % 256) }

/-- Handler `op_set_ireg` (Annn). -/
def opSetIreg (e : Emulator) (val : Nat) : Emulator :=
  { e with regI := val }

/-- Handler `op_jump_off` (Bnnn, simple variant): `pc = nnn + V0` in 16-bit arithmetic. -/
def opJumpOff (e : Emulator) (address : Nat) : Emulator :=
  { e with pc := (address + e.regs 0) % 65536 }

/-- Handler `op_jump_coff` (Bnnn, complex-jump variant): `pc = nnn + Vx`. -/
def opJumpCoff (e : Emulator) (address reg : Nat) : Emulator :=
  { e with pc := (address + e.regs reg) % 65536 }

/-- Handler `op_rng` (Cxnn): `Vx := random_byte & nn`, consuming one byte of the
modelled random stream. -/
def opRng (e : Emulator) (reg val : Nat) : Emulator :=
  { e with regs := upd e.regs reg (e.rng.headD 0 &&& val), rng := e.rng.tail }

/-- Inner column loop of `op_display`: `for x in 0..8`, with the `break` when
`pos_x + x` reaches 64.  `k` counts the remaining iterations, `c` is the
column counter; returns the updated framebuffer and collision accumulator. -/
def drawCols (sprite posX posY r : Nat) : Nat → Nat → (Nat → Nat → Nat) → Nat → ((Nat → Nat → Nat) × Nat)
  | 0, _, d, vf => (d, vf)
  | k + 1, c, d, vf =>
    if 64 ≤ posX + c then (d, vf)
    else
      let pix := d (posX + c) (posY + r)
      if sprite &&& (0x80 >>> c) ≠ 0 then
        drawCols sprite posX posY r k (c + 1)
          (upd2 d (posX + c) (posY + r) (pix ^^^ 1))
          (if pix = 1 then 1 else vf)
      else
        drawCols sprite posX posY r k (c + 1) d vf

/-- Outer row loop of `op_display`: `for y in 0..val`, with the `break` when
`pos_y + y` reaches 32, and the checked sprite-byte read
`self.mem[(self.reg_i + y) as usize]` (16-bit address arithmetic). -/
def drawRows (mem : Nat → Nat) (regI posX posY : Nat) : Nat → Nat → (Nat → Nat → Nat) → Nat → Except EmuError ((Nat → Nat → Nat) × Nat)
  | 0, _, d, vf => .ok (d, vf)
  | k + 1, r, d, vf =>
    if 32 ≤ posY + r then .ok (d, vf)
    else
      match memRead mem ((regI + r) % 65536) with
      | .error err => .error err
      | .ok sprite =>
        drawRows mem regI posX posY k (r + 1)
          (drawCols sprite posX posY r 8 0 d vf).1
          (drawCols sprite posX posY r 8 0 d vf).2

/-- Handler `op_display` (Dxyn): start position `(Vx % 64, Vy % 32)`, `regs[15]`
cleared before the loop and raised to 1 on collision (the accumulator starts
at 0 and the final value is written to register 15). -/
def opDisplay (e : Emulator) (regX regY val : Nat) : Except EmuError Emulator :=
  let posX := e.regs regX % 64
  let posY := e.regs regY % 32
  match drawRows e.mem e.regI posX posY val 0 e.display 0 with
  | .error err => .error err
  | .ok dv => .ok { e with display := dv.1, regs := upd e.regs 15 dv.2 }

/-- Handler `op_key_skip` (Ex9E): skip only when a key is pressed and equals `Vx`. -/
def opKeySkip (e : Emulator) (reg : Nat) : Emulator :=
  match e.key with
  | some k => if k = e.regs reg then { e with pc := (e.pc + 2) % 65536 } else e
  | none => e

/-- Handler `op_nkey_skip` (ExA1): in the source, skip only when a key is pressed and
differs from `Vx`; the `None` arm does nothing. -/
def opNkeySkip (e : Emulator) (reg : Nat) : Emulator :=
  match e.key with
  | some k => if k ≠ e.regs reg then { e with pc := (e.pc + 2) % 65536 } else e
  | none => e

/-- Handler `op_check_timer` (Fx07). -/
def opCheckTimer (e : Emulator) (reg : Nat) : Emulator :=
  { e with regs := upd e.regs reg e.delayTimer }

/-- Handler `op_set_dtimer` (Fx15). -/
def opSetDtimer (e : Emulator) (reg : Nat) : Emulator :=
  { e with delayTimer := e.regs reg }

/-- Handler `op_set_stimer` (Fx18). -/
def opSetStimer (e : Emulator) (reg : Nat) : Emulator :=
  { e with soundTimer := e.regs reg }

/-- Handler `op_add_ireg` (Fx1E): 16-bit `reg_i += Vx`; register 15 is set to 1 only
when the new value strictly exceeds `0x1000`, and is untouched otherwise. -/
def opAddIreg (e : Emulator) (reg : Nat) : Emulator :=
  let i := (e.regI + e.regs reg) % 65536
  if 0x1000 < i then { e with regI := i, regs := upd e.regs 15 1 }
  else { e with regI := i }

/-- Handler `op_get_key` (Fx0A): latch the pressed key into `Vx`, or rewind the
program counter by 2 (16-bit arithmetic) when no key is pressed. -/
def opGetKey (e : Emulator) (reg : Nat) : Emulator :=
  match e.key with
  | some k => { e with regs := upd e.regs reg k }
  | none => { e with pc := (e.pc + 65536 - 2) % 65536 }

/-- Handler `op_font_char` (Fx29): the source sets
`reg_i = MEM_OFFSET + (Vx & 0x0F) * 5`, using the program-area base
`MEM_OFFSET = 0x200`, not the `0x050` base at which `load_font` placed the
glyph table. -/
def opFontChar (e : Emulator) (reg : Nat) : Emulator :=
  { e with regI := MEM_OFFSET + (e.regs reg &&& 0x0F) * 5 }

/-- Handler `op_decimals` (Fx33): three checked writes at `reg_i`, `reg_i + 1`,
`reg_i + 2` (16-bit address arithmetic). -/
def opDecimals (e : Emulator) (reg : Nat) : Except EmuError Emulator :=
  let n := e.regs reg
  match memWrite e.mem e.regI (n / 100) with
  | .error err => .error err
  | .ok m1 =>
    match memWrite m1 ((e.regI + 1) % 65536) (n % 100 / 10) with
    | .error err => .error err
    | .ok m2 =>
      match memWrite m2 ((e.regI + 2) % 65536) (n % 10) with
      | .error err => .error err
      | .ok m3 => .ok { e with mem := m3 }

/-- Loop of `op_store` (Fx55): `for n in 0..=reg`, checked writes of
`V0..Vx` at `reg_i + n`; `k` counts remaining iterations, `n` the counter. -/
def storeLoop (regs : Nat → Nat) (regI : Nat) : Nat → Nat → (Nat → Nat) → Except EmuError (Nat → Nat)
  | 0, _, m => .ok m
  | k + 1, n, m =>
    match memWrite m ((regI + n) % 65536) (regs n) with
    | .error err => .error err
    | .ok m1 => storeLoop regs regI k (n + 1) m1

/-- Handler `op_store` (Fx55); `reg_i` itself is not modified. -/
def opStore (e : Emulator) (reg : Nat) : Except EmuError Emulator :=
  match storeLoop e.regs e.regI (reg + 1) 0 e.mem with
  | .error err => .error err
  | .ok m => .ok { e with mem := m }

/-- Loop of `op_load` (Fx65): checked reads of memory at `reg_i + n` into
`V0..Vx`. -/
def loadLoop (mem : Nat → Nat) (regI : Nat) : Nat → Nat → (Nat → Nat) → Except EmuError (Nat → Nat)
  | 0, _, r => .ok r
  | k + 1, n, r =>
    match memRead mem ((regI + n) % 65536) with
    | .error err => .error err
    | .ok v => loadLoop mem regI k (n + 1) (upd r n v)

/-- Handler `op_load` (Fx65); `reg_i` itself is not modified. -/
def opLoad (e : Emulator) (reg : Nat) : Except EmuError Emulator :=
  match loadLoop e.mem e.regI (reg + 1) 0 e.regs with
  | .error err => .error err
  | .ok r => .ok { e with regs := r }

/-- Decode-and-dispatch of `internal_step` after the fetch: the two-level
`match` of the source on the primary nibble and the sub-selector.  Arms the
source only logs as unimplemented return the state unchanged. -/
def execInst (e : Emulator) (inst : Nat) : Except EmuError Emulator :=
  let x := (inst &&& 0x0F00) >>> 8
  let y := (inst &&& 0x00F0) >>> 4
  let n := inst &&& 0x000F
  let nn := inst &&& 0x00FF
  let nnn := inst &&& 0x0FFF
  match inst &&& 0xF000 with
  | 0x0000 =>
    match inst with
    | 0x00E0 => .ok (opClearScreen e)
    | 0x00EE => opRet e
    | _ => .ok e
  | 0x1000 => .ok (opJump e nnn)
  | 0x2000 => .ok (opSubroutine e nnn)
  | 0x3000 => .ok (opEqSkip e x nn)
  | 0x4000 => .ok (opNeqSkip e x nn)
  | 0x5000 => .ok (opReqSkip e x y)
  | 0x6000 => .ok (opSetReg e x nn)
  | 0x7000 => .ok (opAddReg e x nn)
  | 0x8000 =>
    match n with
    | 0x0 => .ok (opSet e x y)
    | 0x1 => .ok (opOr e x y)
    | 0x2 => .ok (opAnd e x y)
    | 0x3 => .ok (opXor e x y)
    | 0x4 => .ok (opAdd e x y)
    | 0x5 => .ok (opSub e x y)
    | 0x6 => .ok (opShiftR e x y e.shiftSwap)
    | 0x7 => .ok (opRsub e x y)
    | 0xE => .ok (opShiftL e x y e.shiftSwap)
    | _ => .ok e
  | 0x9000 => .ok (opRneqSkip e x y)
  | 0xA000 => .ok (opSetIreg e nnn)
  | 0xB000 => .ok (if !e.complexJump then opJumpOff e nnn else opJumpCoff e nnn x)
  | 0xC000 => .ok (opRng e x nn)
  | 0xD000 => opDisplay e x y n
  | 0xE000 =>
    match nn with
    | 0x9E => .ok (opKeySkip e x)
    | 0xA1 => .ok (opNkeySkip e x)
    | _ => .ok e
  | 0xF000 =>
    match nn with
    | 0x07 => .ok (opCheckTimer e x)
    | 0x15 => .ok (opSetDtimer e x)
    | 0x18 => .ok (opSetStimer e x)
    | 0x1E => .ok (opAddIreg e x)
    | 0x0A => .ok (opGetKey e x)
    | 0x29 => .ok (opFontChar e x)
    | 0x33 => opDecimals e x
    | 0x55 => opStore e x
    | 0x65 => opLoad e x
    | _ => .ok e
  | _ => .ok e

/-- The method `internal_step`: fetch, advance the program counter by 2 (16-bit), then
dispatch. -/
def internalStep (e : Emulator) : Except EmuError Emulator :=
  match currInst e with
  | .error err => .error err
  | .ok inst => execInst { e with pc := (e.pc + 2) % 65536 } inst

/-- The `for n in 0..self.cpf` cycle loop of `step`. -/
def stepCycles : Nat → Emulator → Except EmuError Emulator
  | 0, e => .ok e
  | k + 1, e =>
    match internalStep e with
    | .error err => .error err
    | .ok e1 => stepCycles k e1

/-- Timer decrements at the head of `step`: each timer drops by 1 when
nonzero. -/
def tickTimers (e : Emulator) : Emulator :=
  let e1 := if 0 < e.delayTimer then { e with delayTimer := e.delayTimer - 1 } else e
  if 0 < e1.soundTimer then { e1 with soundTimer := e1.soundTimer - 1 } else e1

/-- The method `step`: decrement the timers, run `cpf` cycles (none when `cpf ≤ 0`,
matching the empty `0..cpf` range), then bump the 128-bit frame counter. -/
def step (e : Emulator) : Except EmuError Emulator :=
  let e1 := tickTimers e
  match stepCycles e1.cpf.toNat e1 with
  | .error err => .error err
  | .ok e2 => .ok { e2 with frameCount := (e2.frameCount + 1) % (2 ^ 128) }

/-- The initial machine of `Emulator::new()` (with an empty modelled random
stream). -/
def initEmu : Emulator where
  maxFps := 60
  cpf := 10
  shiftSwap := false
  complexJump := false
  state := RunState.NoROM
  frameCount := 0
  mem := fun _ => 0
  display := fun _ _ => 0
  pc := MEM_OFFSET
  regI := 0
  stack := []
  delayTimer := 0
  soundTimer := 0
  regs := fun _ => 0
  key := none
  rng := []

/-- Machine with the glyph table loaded, as `load_font` leaves it. -/
def eFont : Emulator := loadFont initEmu

/-- Machine used for the `8xy4` analysis: `V15 = 200`, `V0 = 100`. -/
def e5 : Emulator :=
  { initEmu with regs := fun i => if i = 15 then 200 else if i = 0 then 100 else 0 }

/-- Machine used for the `8xy7` analysis: `V15 = 1`, `V0 = 5`. -/
def e8 : Emulator :=
  { initEmu with regs := fun i => if i = 15 then 1 else if i = 0 then 5 else 0 }

/-- Result of `Fx55` with `x = 0` on the initial machine. -/
def eStoreRes : Emulator := (opStore initEmu 0).toOption.getD initEmu

/-- Result of `Fx65` with `x = 0` on the initial machine. -/
def eLoadRes : Emulator := (opLoad initEmu 0).toOption.getD initEmu

/-- Column part of the sprite mask: `colMask sprite posX k c i` is 1 exactly
when the remaining `k` columns starting at counter `c` of the row would flip
the framebuffer column `i`, mirroring the `break` of the column loop.  The
mask does not depend on the framebuffer, which makes the draw an XOR by a
fixed pattern. -/
def colMask (sprite posX : Nat) : Nat → Nat → Nat → Nat
  | 0, _, _ => 0
  | k + 1, c, i =>
    if 64 ≤ posX + c then 0
    else if i = posX + c then (if sprite &&& (0x80 >>> c) ≠ 0 then 1 else 0)
    else colMask sprite posX k (c + 1) i

/-- Row part of the sprite mask: which pixels a `Dxyn` draw flips, mirroring
the `break` of the row loop and the per-row sprite fetch. -/
def rowMask (mem : Nat → Nat) (regI posX posY : Nat) : Nat → Nat → Nat → Nat → Nat
  | 0, _, _, _ => 0
  | k + 1, r, i, j =>
    if 32 ≤ posY + r then 0
    else if j = posY + r then colMask (mem ((regI + r) % 65536)) posX 8 0 i
    else rowMask mem regI posX posY k (r + 1) i j

/-- Result of a trivial draw (all-zero sprite) on the initial machine. -/
def e6res : Emulator := (opDisplay initEmu 0 0 1).toOption.getD initEmu

/-- Machine whose byte 0 holds the one-row sprite `0x80`, index register 0. -/
def e7base : Emulator := { initEmu with mem := upd initEmu.mem 0 0x80 }

/-- First draw of the `0x80` sprite at `(0, 0)`. -/
def e7a : Emulator := (opDisplay e7base 0 0 1).toOption.getD e7base

/-- Second draw of the same sprite, which must erase the first. -/
def e7b : Emulator := (opDisplay e7a 0 0 1).toOption.getD e7a

/-- Override of the run-state field, used to compare executions that differ
only in the run state. -/
def setState (e : Emulator) (s : RunState) : Emulator :=
  { e with state := s }

/-- Machine with the program counter out of the address space. -/
def eBadPc : Emulator := { initEmu with pc := 4096 }

/-- Machine with the index register out of the address space. -/
def eBadI : Emulator := { initEmu with regI := 4096 }

/-- Running machine whose program is the single instruction `00EE` and whose
call stack is empty. -/
def eC4 : Emulator :=
  { initEmu with
    state := RunState.Running, cpf := 1,
    mem := upd (upd initEmu.mem 0x200 0x00) 0x201 0xEE }

/-- Result of one frame step on the freshly created machine. -/
def eRun : Emulator := (step initEmu).toOption.getD initEmu

-- ===== further definitions are inserted above this line =====

/-- Claim C1: the source contradicts its own `load_font`: `Fx29` sets the
index register to `MEM_OFFSET (0x200) + (Vx & 0xF) * 5`, the program area,
while the 5-byte glyphs live at base `0x050`.  At `Vx = 0` the index register
becomes `0x200`, not `0x050`; after `load_font` the byte at `0x050` is the
first glyph byte `0xF0`, while the byte the index register addresses is `0`. -/
theorem fontChar_uses_program_base :
    (opFontChar eFont 0).regI = 0x200 ∧
    (opFontChar eFont 0).regI ≠ 0x050 + (eFont.regs 0 &&& 0xF) * 5 ∧
    eFont.mem 0x050 = 0xF0 ∧
    eFont.mem ((opFontChar eFont 0).regI) = 0 := by
  decide

/-- Claim C2: the source's `op_nkey_skip` (`ExA1`) does nothing in its `None`
arm: with no key pressed the program counter is left unchanged, although the
claim requires a skip (`pc + 2`) in that case. -/
theorem nkeySkip_ignores_missing_key :
    initEmu.key = none ∧
    (opNkeySkip initEmu 0).pc = initEmu.pc ∧
    (opNkeySkip initEmu 0).pc ≠ (initEmu.pc + 2) % 65536 := by
  decide

/-- Claim C5, counterexample to the universal claim: at `x = 15` the carry
write lands on `Vx` itself.  With `V15 = 200`, `V0 = 100` the claimed final
`Vx = (200 + 100) % 256 = 44` fails: the register ends up holding the carry 1. -/
theorem opAdd_flag_register_cex :
    e5.regs 15 = 200 ∧ e5.regs 0 = 100 ∧
    (opAdd e5 15 0).regs 15 = 1 ∧
    (opAdd e5 15 0).regs 15 ≠ (200 + 100) % 256 := by
  decide

/-- Claim C5, amended: for byte values `a`, `b`, `8xy4` always leaves the
carry (1 exactly when `a + b ≥ 256`) in register 15, and for `x ≠ 15` it
leaves `(a + b) mod 256` in `Vx`; for `x = 15` the carry overwrites the sum. -/
theorem opAdd_wraps_and_sets_carry (e : Emulator) (x y a b : Nat)
    (ha : e.regs x = a) (hb : e.regs y = b) (ha8 : a < 256) (hb8 : b < 256) :
    (opAdd e x y).regs 15 = (if 256 ≤ a + b then 1 else 0) ∧
    (x ≠ 15 → (opAdd e x y).regs x = (a + b) % 256) := by
  subst ha hb
  refine ⟨by simp [opAdd, upd], fun hx => ?_⟩
  simp [opAdd, upd, hx]

/-- Witness for the amended C5 at `x = 0`, `y = 1`, `a = 100`, `b = 0`. -/
theorem opAdd_wraps_and_sets_carry_wit :
    (opAdd e5 0 1).regs 0 = (100 + 0) % 256 :=
  (opAdd_wraps_and_sets_carry e5 0 1 100 0 (by decide) (by decide)
    (by decide) (by decide)).2 (by decide)

/-- Claim C8, counterexample to the universal claim: at `x = 15` the borrow
flag write lands on `Vx` itself.  With `V15 = 1 ≤ V0 = 5` the claim demands
`Vx = Vy - Vx = 4` together with `VF = 0`, but the register ends up 0. -/
theorem opRsub_flag_register_cex :
    e8.regs 15 = 1 ∧ e8.regs 0 = 5 ∧ e8.regs 15 ≤ e8.regs 0 ∧
    (opRsub e8 15 0).regs 15 = 0 ∧
    (opRsub e8 15 0).regs 15 ≠ e8.regs 0 - e8.regs 15 := by
  decide

/-- Claim C8, amended: for byte values `a = Vx`, `b = Vy`, `8xy7` clears
register 15 when `a ≤ b` and sets it when `a > b`; for `x ≠ 15` it
additionally writes `b - a` into `Vx` in the first case and leaves `Vx`
unchanged in the second.  For `x = 15` the flag write overwrites `Vx`. -/
theorem opRsub_diff_and_borrow (e : Emulator) (x y a b : Nat)
    (ha : e.regs x = a) (hb : e.regs y = b) (ha8 : a < 256) (hb8 : b < 256) :
    (a ≤ b → (opRsub e x y).regs 15 = 0 ∧ (x ≠ 15 → (opRsub e x y).regs x = b - a)) ∧
    (b < a → (opRsub e x y).regs 15 = 1 ∧ (x ≠ 15 → (opRsub e x y).regs x = a)) := by
  subst ha hb
  constructor
  · intro hab
    refine ⟨by simp [opRsub, hab, upd], fun hx => ?_⟩
    simp [opRsub, hab, upd, hx]
  · intro hba
    have hno : ¬ e.regs x ≤ e.regs y := by omega
    refine ⟨by simp [opRsub, hno, upd], fun hx => ?_⟩
    simp [opRsub, hno, upd, hx]

/-- Witness for the amended C8 at `x = 0`, `y = 1`, `a = 5`, `b = 0`
(the underflowing branch: `V0` is left unchanged). -/
theorem opRsub_diff_and_borrow_wit :
    (opRsub e8 0 1).regs 0 = 5 :=
  ((opRsub_diff_and_borrow e8 0 1 5 0 (by decide) (by decide)
    (by decide) (by decide)).2 (by decide)).2 (by decide)

/-- Claim C10: `Fx55` and `Fx65` leave the index register exactly as it was;
the source loops read `reg_i + n` but never assign `reg_i`. -/
theorem storeLoad_preserve_regI (e : Emulator) (x : Nat) :
    (∀ e1, opStore e x = .ok e1 → e1.regI = e.regI) ∧
    (∀ e1, opLoad e x = .ok e1 → e1.regI = e.regI) := by
  constructor
  · intro e1 h
    unfold opStore at h
    cases hs : storeLoop e.regs e.regI (x + 1) 0 e.mem with
    | error err => rw [hs] at h; cases h
    | ok m => rw [hs] at h; cases h; rfl
  · intro e1 h
    unfold opLoad at h
    cases hs : loadLoop e.mem e.regI (x + 1) 0 e.regs with
    | error err => rw [hs] at h; cases h
    | ok r => rw [hs] at h; cases h; rfl

/-- Witness for C10: `Fx55` and `Fx65` with `x = 0` on the initial machine
succeed and keep the index register at its old value. -/
theorem storeLoad_preserve_regI_wit :
    eStoreRes.regI = initEmu.regI ∧ eLoadRes.regI = initEmu.regI :=
  ⟨(storeLoad_preserve_regI initEmu 0).1 eStoreRes rfl,
   (storeLoad_preserve_regI initEmu 0).2 eLoadRes rfl⟩

/-- Columns left of the current counter are never flipped by the remaining
columns. -/
theorem colMask_eq_zero_of_lt (sprite posX : Nat) :
    ∀ k c i, i < posX + c → colMask sprite posX k c i = 0 := by
  intro k
  induction k with
  | zero => intro c i _; rfl
  | succ k ih =>
    intro c i hi
    unfold colMask
    by_cases hbr : 64 ≤ posX + c
    · rw [if_pos hbr]
    · rw [if_neg hbr, if_neg (by omega : ¬ i = posX + c)]
      exact ih (c + 1) i (by omega)

/-- Support of the column mask: flipped columns lie in the sprite's 8-column
window and strictly below 64. -/
theorem colMask_support (sprite posX : Nat) :
    ∀ k c i, colMask sprite posX k c i ≠ 0 →
      posX + c ≤ i ∧ i < posX + c + k ∧ i < 64 := by
  intro k
  induction k with
  | zero => intro c i h; exact absurd rfl h
  | succ k ih =>
    intro c i h
    unfold colMask at h
    by_cases hbr : 64 ≤ posX + c
    · rw [if_pos hbr] at h; exact absurd rfl h
    · rw [if_neg hbr] at h
      by_cases hic : i = posX + c
      · omega
      · rw [if_neg hic] at h
        have := ih (c + 1) i h
        omega

/-- The column loop of the draw XORs the current row of the framebuffer with
the column mask and leaves every other pixel unchanged. -/
theorem drawCols_display (sprite posX posY r : Nat) :
    ∀ k c d vf i j,
      (drawCols sprite posX posY r k c d vf).1 i j
        = d i j ^^^ (if j = posY + r then colMask sprite posX k c i else 0) := by
  intro k
  induction k with
  | zero => intro c d vf i j; simp [drawCols, colMask]
  | succ k ih =>
    intro c d vf i j
    simp only [drawCols, colMask]
    by_cases hbr : 64 ≤ posX + c
    · rw [if_pos hbr, if_pos hbr]
      simp
    · rw [if_neg hbr, if_neg hbr]
      by_cases hbit : sprite &&& (0x80 >>> c) ≠ 0
      · rw [if_pos hbit, ih]
        by_cases hj : j = posY + r
        · by_cases hic : i = posX + c
          · rw [if_pos hj, if_pos hj, if_pos hic, if_pos hbit]
            rw [colMask_eq_zero_of_lt sprite posX k (c + 1) i (by omega),
                Nat.xor_zero]
            subst hic hj
            simp [upd2]
          · rw [if_pos hj, if_pos hj, if_neg hic]
            have : upd2 d (posX + c) (posY + r) (d (posX + c) (posY + r) ^^^ 1) i j = d i j := by
              simp [upd2, hic]
            rw [this]
        · rw [if_neg hj, if_neg hj]
          have : upd2 d (posX + c) (posY + r) (d (posX + c) (posY + r) ^^^ 1) i j = d i j := by
            simp [upd2, hj]
          rw [this]
      · rw [if_neg hbit, ih]
        by_cases hj : j = posY + r
        · by_cases hic : i = posX + c
          · rw [if_pos hj, if_pos hj, if_pos hic, if_neg hbit]
            rw [colMask_eq_zero_of_lt sprite posX k (c + 1) i (by omega)]
          · rw [if_pos hj, if_pos hj, if_neg hic]
        · rw [if_neg hj, if_neg hj]

/-- Collision outcome of the column loop: the accumulator ends at 1 exactly
when it started at 1 or some processed, unclipped, set sprite bit lands on a
pixel that is on. -/
theorem drawCols_vf (sprite posX posY r : Nat) :
    ∀ k c d vf,
      ((drawCols sprite posX posY r k c d vf).2 = 1
        ↔ (vf = 1 ∨ ∃ c1, c ≤ c1 ∧ c1 < c + k ∧ posX + c1 < 64 ∧
            sprite &&& (0x80 >>> c1) ≠ 0 ∧ d (posX + c1) (posY + r) = 1)) := by
  intro k
  induction k with
  | zero =>
    intro c d vf
    constructor
    · intro h; exact Or.inl h
    · rintro (h | ⟨c1, h1, h2, _⟩)
      · exact h
      · omega
  | succ k ih =>
    intro c d vf
    simp only [drawCols]
    by_cases hbr : 64 ≤ posX + c
    · rw [if_pos hbr]
      constructor
      · intro h; exact Or.inl h
      · rintro (h | ⟨c1, h1, h2, h3, _⟩)
        · exact h
        · omega
    · rw [if_neg hbr]
      by_cases hbit : sprite &&& (0x80 >>> c) ≠ 0
      · rw [if_pos hbit]
        by_cases hpix : d (posX + c) (posY + r) = 1
        · rw [if_pos hpix, ih]
          constructor
          · intro _
            exact Or.inr ⟨c, Nat.le_refl c, by omega, by omega, hbit, hpix⟩
          · intro _
            exact Or.inl rfl
        · rw [if_neg hpix, ih]
          constructor
          · rintro (h | ⟨c1, h1, h2, h3, h4, h5⟩)
            · exact Or.inl h
            · refine Or.inr ⟨c1, by omega, by omega, h3, h4, ?_⟩
              have hne : ¬ (posX + c1 = posX + c ∧ posY + r = posY + r) := by
                intro hc; omega
              rw [upd2, if_neg hne] at h5
              exact h5
          · rintro (h | ⟨c1, h1, h2, h3, h4, h5⟩)
            · exact Or.inl h
            · by_cases hc1 : c1 = c
              · subst hc1
                exact absurd h5 hpix
              · refine Or.inr ⟨c1, by omega, by omega, h3, h4, ?_⟩
                have hne : ¬ (posX + c1 = posX + c ∧ posY + r = posY + r) := by
                  intro hc; omega
                rw [upd2, if_neg hne]
                exact h5
      · rw [if_neg hbit, ih]
        constructor
        · rintro (h | ⟨c1, h1, h2, h3, h4, h5⟩)
          · exact Or.inl h
          · exact Or.inr ⟨c1, by omega, by omega, h3, h4, h5⟩
        · rintro (h | ⟨c1, h1, h2, h3, h4, h5⟩)
          · exact Or.inl h
          · by_cases hc1 : c1 = c
            · subst hc1
              exact absurd h4 hbit
            · exact Or.inr ⟨c1, by omega, by omega, h3, h4, h5⟩

/-- Rows above the current row counter are never flipped by the remaining
rows. -/
theorem rowMask_eq_zero_of_lt (mem : Nat → Nat) (regI posX posY : Nat) :
    ∀ k r i j, j < posY + r → rowMask mem regI posX posY k r i j = 0 := by
  intro k
  induction k with
  | zero => intro r i j _; rfl
  | succ k ih =>
    intro r i j hj
    unfold rowMask
    by_cases hclip : 32 ≤ posY + r
    · rw [if_pos hclip]
    · rw [if_neg hclip, if_neg (by omega : ¬ j = posY + r)]
      exact ih (r + 1) i j (by omega)

/-- Support of the full sprite mask: flipped pixels lie in the sprite's
window, strictly below row 32 and column 64. -/
theorem rowMask_support (mem : Nat → Nat) (regI posX posY : Nat) :
    ∀ k r i j, rowMask mem regI posX posY k r i j ≠ 0 →
      posY + r ≤ j ∧ j < posY + r + k ∧ j < 32 ∧
      posX ≤ i ∧ i < posX + 8 ∧ i < 64 := by
  intro k
  induction k with
  | zero => intro r i j h; exact absurd rfl h
  | succ k ih =>
    intro r i j h
    unfold rowMask at h
    by_cases hclip : 32 ≤ posY + r
    · rw [if_pos hclip] at h; exact absurd rfl h
    · rw [if_neg hclip] at h
      by_cases hj : j = posY + r
      · rw [if_pos hj] at h
        have := colMask_support (mem ((regI + r) % 65536)) posX 8 0 i h
        omega
      · rw [if_neg hj] at h
        have := ih (r + 1) i j h
        omega

/-- A successful row loop XORs the framebuffer with the sprite mask. -/
theorem drawRows_display (mem : Nat → Nat) (regI posX posY : Nat) :
    ∀ k r d vf d1 vf1,
      drawRows mem regI posX posY k r d vf = .ok (d1, vf1) →
      ∀ i j, d1 i j = d i j ^^^ rowMask mem regI posX posY k r i j := by
  intro k
  induction k with
  | zero =>
    intro r d vf d1 vf1 h i j
    simp only [drawRows, Except.ok.injEq, Prod.mk.injEq] at h
    rw [← h.1, rowMask, Nat.xor_zero]
  | succ k ih =>
    intro r d vf d1 vf1 h i j
    simp only [drawRows] at h
    by_cases hclip : 32 ≤ posY + r
    · rw [if_pos hclip] at h
      simp only [Except.ok.injEq, Prod.mk.injEq] at h
      rw [← h.1]
      unfold rowMask
      rw [if_pos hclip, Nat.xor_zero]
    · rw [if_neg hclip] at h
      cases hm : memRead mem ((regI + r) % 65536) with
      | error err => rw [hm] at h; cases h
      | ok sprite =>
        rw [hm] at h
        have hs : sprite = mem ((regI + r) % 65536) := by
          unfold memRead at hm
          by_cases ha : (regI + r) % 65536 < 4096
          · rw [if_pos ha] at hm; cases hm; rfl
          · rw [if_neg ha] at hm; cases hm
        have hd1 := ih (r + 1) _ _ d1 vf1 h i j
        rw [drawCols_display] at hd1
        unfold rowMask
        rw [if_neg hclip]
        by_cases hj : j = posY + r
        · rw [if_pos hj]
          rw [hd1, if_pos hj,
              rowMask_eq_zero_of_lt mem regI posX posY k (r + 1) i j (by omega),
              Nat.xor_zero, hs]
        · rw [if_neg hj]
          rw [hd1, if_neg hj, Nat.xor_zero]

/-- Collision outcome of a successful row loop: the final accumulator is 1
exactly when it started at 1 or some set, unclipped sprite bit lands on a
pixel that is on in the framebuffer as it was when the loop started. -/
theorem drawRows_vf (mem : Nat → Nat) (regI posX posY : Nat) :
    ∀ k r d vf d1 vf1,
      drawRows mem regI posX posY k r d vf = .ok (d1, vf1) →
      (vf1 = 1 ↔ (vf = 1 ∨ ∃ r1, r ≤ r1 ∧ r1 < r + k ∧ posY + r1 < 32 ∧
        ∃ c, c < 8 ∧ posX + c < 64 ∧
          mem ((regI + r1) % 65536) &&& (0x80 >>> c) ≠ 0 ∧
          d (posX + c) (posY + r1) = 1)) := by
  intro k
  induction k with
  | zero =>
    intro r d vf d1 vf1 h
    simp only [drawRows, Except.ok.injEq, Prod.mk.injEq] at h
    rw [← h.2]
    constructor
    · intro hv; exact Or.inl hv
    · rintro (hv | ⟨r1, h1, h2, _⟩)
      · exact hv
      · omega
  | succ k ih =>
    intro r d vf d1 vf1 h
    simp only [drawRows] at h
    by_cases hclip : 32 ≤ posY + r
    · rw [if_pos hclip] at h
      simp only [Except.ok.injEq, Prod.mk.injEq] at h
      rw [← h.2]
      constructor
      · intro hv; exact Or.inl hv
      · rintro (hv | ⟨r1, h1, h2, h3, _⟩)
        · exact hv
        · omega
    · rw [if_neg hclip] at h
      cases hm : memRead mem ((regI + r) % 65536) with
      | error err => rw [hm] at h; cases h
      | ok sprite =>
        rw [hm] at h
        have hs : sprite = mem ((regI + r) % 65536) := by
          unfold memRead at hm
          by_cases ha : (regI + r) % 65536 < 4096
          · rw [if_pos ha] at hm; cases hm; rfl
          · rw [if_neg ha] at hm; cases hm
        have hvf := ih (r + 1) _ _ d1 vf1 h
        rw [hvf]
        constructor
        · rintro (hdc | ⟨r1, h1, h2, h3, c, hc, hcx, hbit, hpix⟩)
          · rcases (drawCols_vf sprite posX posY r 8 0 d vf).mp hdc with
              hv | ⟨c1, _, hc1, hcx1, hbit1, hpix1⟩
            · exact Or.inl hv
            · refine Or.inr ⟨r, Nat.le_refl r, by omega, by omega, c1, by omega,
                hcx1, ?_, hpix1⟩
              rw [← hs]
              exact hbit1
          · refine Or.inr ⟨r1, by omega, by omega, h3, c, hc, hcx, hbit, ?_⟩
            rw [drawCols_display, if_neg (by omega : ¬ posY + r1 = posY + r),
                Nat.xor_zero] at hpix
            exact hpix
        · rintro (hv | ⟨r1, h1, h2, h3, c, hc, hcx, hbit, hpix⟩)
          · exact Or.inl ((drawCols_vf sprite posX posY r 8 0 d vf).mpr (Or.inl hv))
          · by_cases hr1 : r1 = r
            · subst hr1
              refine Or.inl ((drawCols_vf sprite posX posY r1 8 0 d vf).mpr
                (Or.inr ⟨c, Nat.zero_le c, by omega, hcx, ?_, hpix⟩))
              rw [hs]
              exact hbit
            · refine Or.inr ⟨r1, by omega, by omega, h3, c, hc, hcx, hbit, ?_⟩
              rw [drawCols_display, if_neg (by omega : ¬ posY + r1 = posY + r),
                  Nat.xor_zero]
              exact hpix

/-- A successful `Dxyn` XORs the framebuffer with the sprite mask anchored at
`(Vx % 64, Vy % 32)`. -/
theorem opDisplay_ok_display (e : Emulator) (x y n : Nat) (e1 : Emulator)
    (h : opDisplay e x y n = .ok e1) :
    ∀ i j, e1.display i j
      = e.display i j ^^^ rowMask e.mem e.regI (e.regs x % 64) (e.regs y % 32) n 0 i j := by
  intro i j
  simp only [opDisplay] at h
  cases hr : drawRows e.mem e.regI (e.regs x % 64) (e.regs y % 32) n 0 e.display 0 with
  | error err => rw [hr] at h; cases h
  | ok dv =>
    rw [hr] at h
    cases h
    exact drawRows_display e.mem e.regI (e.regs x % 64) (e.regs y % 32) n 0
      e.display 0 dv.1 dv.2 (by rw [hr]) i j

/-- A successful `Dxyn` leaves 1 in register 15 exactly when some set,
unclipped sprite bit landed on a pixel that was on. -/
theorem opDisplay_ok_vf (e : Emulator) (x y n : Nat) (e1 : Emulator)
    (h : opDisplay e x y n = .ok e1) :
    (e1.regs 15 = 1 ↔ ∃ r1, r1 < n ∧ e.regs y % 32 + r1 < 32 ∧
      ∃ c, c < 8 ∧ e.regs x % 64 + c < 64 ∧
        e.mem ((e.regI + r1) % 65536) &&& (0x80 >>> c) ≠ 0 ∧
        e.display (e.regs x % 64 + c) (e.regs y % 32 + r1) = 1) := by
  simp only [opDisplay] at h
  cases hr : drawRows e.mem e.regI (e.regs x % 64) (e.regs y % 32) n 0 e.display 0 with
  | error err => rw [hr] at h; cases h
  | ok dv =>
    rw [hr] at h
    cases h
    have hvf := drawRows_vf e.mem e.regI (e.regs x % 64) (e.regs y % 32) n 0
      e.display 0 dv.1 dv.2 (by rw [hr])
    have hgoal : ({ e with display := dv.1, regs := upd e.regs 15 dv.2 } : Emulator).regs 15 = dv.2 := by
      simp [upd]
    rw [hgoal, hvf]
    constructor
    · rintro (hv | ⟨r1, _, h2, h3, rest⟩)
      · cases hv
      · exact ⟨r1, by omega, h3, rest⟩
    · rintro ⟨r1, h1, h3, rest⟩
      exact Or.inr ⟨r1, Nat.zero_le r1, by omega, h3, rest⟩

/-- A successful `Dxyn` touches only the framebuffer and register 15. -/
theorem opDisplay_preserves (e : Emulator) (x y n : Nat) (e1 : Emulator)
    (h : opDisplay e x y n = .ok e1) :
    e1.mem = e.mem ∧ e1.regI = e.regI ∧ e1.pc = e.pc ∧ e1.stack = e.stack := by
  simp only [opDisplay] at h
  cases hr : drawRows e.mem e.regI (e.regs x % 64) (e.regs y % 32) n 0 e.display 0 with
  | error err => rw [hr] at h; cases h
  | ok dv =>
    rw [hr] at h
    cases h
    exact ⟨rfl, rfl, rfl, rfl⟩

/-- Claim C6: a successful `Dxyn` starts at `(Vx mod 64, Vy mod 32)` and is
clipped, never wrapped: every pixel outside the window
`[posX, posX+8) × [posY, posY+n)` intersected with the 64×32 screen — in
particular every pixel of a row at or beyond 32 or a column at or beyond 64,
and every pixel of a row wrapped round to the top — is unchanged. -/
theorem display_clips_outside_region (e : Emulator) (x y n : Nat) (e1 : Emulator)
    (h : opDisplay e x y n = .ok e1) (i j : Nat)
    (hout : i < e.regs x % 64 ∨ e.regs x % 64 + 8 ≤ i ∨ 64 ≤ i ∨
            j < e.regs y % 32 ∨ e.regs y % 32 + n ≤ j ∨ 32 ≤ j) :
    e1.display i j = e.display i j := by
  rw [opDisplay_ok_display e x y n e1 h i j]
  have hm : rowMask e.mem e.regI (e.regs x % 64) (e.regs y % 32) n 0 i j = 0 := by
    by_contra hne
    have := rowMask_support e.mem e.regI (e.regs x % 64) (e.regs y % 32) n 0 i j hne
    omega
  rw [hm, Nat.xor_zero]

/-- Witness for C6: the all-zero sprite draw on the initial machine succeeds
and leaves the pixel `(40, 20)` (outside the 8×1 window at the origin)
unchanged. -/
theorem display_clips_outside_region_wit :
    e6res.display 40 20 = initEmu.display 40 20 :=
  display_clips_outside_region initEmu 0 0 1 e6res rfl 40 20 (by decide)

/-- Claim C7: drawing the same sprite twice in a row restores the
framebuffer exactly (XOR self-inverse) — provided the first draw left the
registers unchanged, as the claim's "identical register contents" requires
(memory and the index register are preserved automatically) — and register
15 afterwards reflects exactly the second draw's collisions. -/
theorem display_twice_restores (e : Emulator) (x y n : Nat) (e1 e2 : Emulator)
    (h1 : opDisplay e x y n = .ok e1)
    (h2 : opDisplay e1 x y n = .ok e2)
    (hregs : e1.regs = e.regs) :
    e2.display = e.display ∧
    (e2.regs 15 = 1 ↔ ∃ r1, r1 < n ∧ e1.regs y % 32 + r1 < 32 ∧
      ∃ c, c < 8 ∧ e1.regs x % 64 + c < 64 ∧
        e1.mem ((e1.regI + r1) % 65536) &&& (0x80 >>> c) ≠ 0 ∧
        e1.display (e1.regs x % 64 + c) (e1.regs y % 32 + r1) = 1) := by
  have hpres := opDisplay_preserves e x y n e1 h1
  constructor
  · funext i j
    rw [opDisplay_ok_display e1 x y n e2 h2 i j, hpres.1, hpres.2.1, hregs,
        opDisplay_ok_display e x y n e1 h1 i j,
        Nat.xor_assoc, Nat.xor_self, Nat.xor_zero]
  · exact opDisplay_ok_vf e1 x y n e2 h2

/-- Witness for C7: drawing the one-pixel sprite `0x80` twice at the origin
restores the all-off framebuffer; the first draw has no collision, so the
register file is unchanged between the draws. -/
theorem display_twice_restores_wit :
    e7b.display = e7base.display :=
  (display_twice_restores e7base 0 0 1 e7a e7b rfl rfl
    (by
      have h0 : e7a.regs = upd e7base.regs 15 0 := rfl
      rw [h0]
      funext i
      show (if i = 15 then 0 else e7base.regs i) = e7base.regs i
      by_cases hi : i = 15
      · rw [if_pos hi, hi]
        rfl
      · rw [if_neg hi])).1

/-- Opcode `00EE` commutes with a run-state override. -/
theorem opRet_setState (e : Emulator) (s : RunState) :
    opRet (setState e s) = (opRet e).map (fun r => setState r s) := by
  unfold opRet
  rw [show (setState e s).stack = e.stack from rfl]
  split <;> rfl

/-- The skip on `Vx = nn` commutes with a run-state override. -/
theorem opEqSkip_setState (e : Emulator) (s : RunState) (reg val : Nat) :
    opEqSkip (setState e s) reg val = setState (opEqSkip e reg val) s := by
  unfold opEqSkip
  rw [show (setState e s).regs = e.regs from rfl]
  split <;> rfl

/-- The skip on `Vx ≠ nn` commutes with a run-state override. -/
theorem opNeqSkip_setState (e : Emulator) (s : RunState) (reg val : Nat) :
    opNeqSkip (setState e s) reg val = setState (opNeqSkip e reg val) s := by
  unfold opNeqSkip
  rw [show (setState e s).regs = e.regs from rfl]
  split <;> rfl

/-- The skip on `Vx = Vy` commutes with a run-state override. -/
theorem opReqSkip_setState (e : Emulator) (s : RunState) (x y : Nat) :
    opReqSkip (setState e s) x y = setState (opReqSkip e x y) s := by
  unfold opReqSkip
  rw [show (setState e s).regs = e.regs from rfl]
  split <;> rfl

/-- The skip on `Vx ≠ Vy` commutes with a run-state override. -/
theorem opRneqSkip_setState (e : Emulator) (s : RunState) (x y : Nat) :
    opRneqSkip (setState e s) x y = setState (opRneqSkip e x y) s := by
  unfold opRneqSkip
  rw [show (setState e s).regs = e.regs from rfl]
  split <;> rfl

/-- Opcode `8xy7` commutes with a run-state override. -/
theorem opRsub_setState (e : Emulator) (s : RunState) (x y : Nat) :
    opRsub (setState e s) x y = setState (opRsub e x y) s := by
  unfold opRsub
  rw [show (setState e s).regs = e.regs from rfl]
  split <;> rfl

/-- Opcode `Fx1E` commutes with a run-state override. -/
theorem opAddIreg_setState (e : Emulator) (s : RunState) (x : Nat) :
    opAddIreg (setState e s) x = setState (opAddIreg e x) s := by
  simp only [opAddIreg]
  rw [show (setState e s).regs = e.regs from rfl,
      show (setState e s).regI = e.regI from rfl]
  split <;> rfl

/-- Opcode `Ex9E` commutes with a run-state override. -/
theorem opKeySkip_setState (e : Emulator) (s : RunState) (x : Nat) :
    opKeySkip (setState e s) x = setState (opKeySkip e x) s := by
  unfold opKeySkip
  rw [show (setState e s).key = e.key from rfl,
      show (setState e s).regs = e.regs from rfl]
  split <;> first | rfl | (split <;> rfl)

/-- Opcode `ExA1` commutes with a run-state override. -/
theorem opNkeySkip_setState (e : Emulator) (s : RunState) (x : Nat) :
    opNkeySkip (setState e s) x = setState (opNkeySkip e x) s := by
  unfold opNkeySkip
  rw [show (setState e s).key = e.key from rfl,
      show (setState e s).regs = e.regs from rfl]
  split <;> first | rfl | (split <;> rfl)

/-- Opcode `Fx0A` commutes with a run-state override. -/
theorem opGetKey_setState (e : Emulator) (s : RunState) (x : Nat) :
    opGetKey (setState e s) x = setState (opGetKey e x) s := by
  unfold opGetKey
  rw [show (setState e s).key = e.key from rfl]
  split <;> rfl

/-- Opcode `Dxyn` commutes with a run-state override. -/
theorem opDisplay_setState (e : Emulator) (s : RunState) (x y n : Nat) :
    opDisplay (setState e s) x y n = (opDisplay e x y n).map (fun r => setState r s) := by
  simp only [opDisplay]
  rw [show (setState e s).regs = e.regs from rfl,
      show (setState e s).mem = e.mem from rfl,
      show (setState e s).regI = e.regI from rfl,
      show (setState e s).display = e.display from rfl]
  split <;> rfl

/-- Opcode `Fx33` commutes with a run-state override. -/
theorem opDecimals_setState (e : Emulator) (s : RunState) (x : Nat) :
    opDecimals (setState e s) x = (opDecimals e x).map (fun r => setState r s) := by
  simp only [opDecimals]
  rw [show (setState e s).regs = e.regs from rfl,
      show (setState e s).mem = e.mem from rfl,
      show (setState e s).regI = e.regI from rfl]
  split
  · rfl
  · split
    · rfl
    · split <;> rfl

/-- Opcode `Fx55` commutes with a run-state override. -/
theorem opStore_setState (e : Emulator) (s : RunState) (x : Nat) :
    opStore (setState e s) x = (opStore e x).map (fun r => setState r s) := by
  simp only [opStore]
  rw [show (setState e s).regs = e.regs from rfl,
      show (setState e s).mem = e.mem from rfl,
      show (setState e s).regI = e.regI from rfl]
  split <;> rfl

/-- Opcode `Fx65` commutes with a run-state override. -/
theorem opLoad_setState (e : Emulator) (s : RunState) (x : Nat) :
    opLoad (setState e s) x = (opLoad e x).map (fun r => setState r s) := by
  simp only [opLoad]
  rw [show (setState e s).regs = e.regs from rfl,
      show (setState e s).mem = e.mem from rfl,
      show (setState e s).regI = e.regI from rfl]
  split <;> rfl

/-- The whole dispatch commutes with a run-state override: no opcode reads or
writes the run-state field. -/
theorem execInst_setState (e : Emulator) (s : RunState) (inst : Nat) :
    execInst (setState e s) inst = (execInst e inst).map (fun r => setState r s) := by
  simp only [execInst]
  rw [show (setState e s).shiftSwap = e.shiftSwap from rfl,
      show (setState e s).complexJump = e.complexJump from rfl]
  split
  · -- 0x0000 family
    split
    · rfl
    · exact opRet_setState e s
    · rfl
  · rfl
  · rfl
  · rw [opEqSkip_setState]; rfl
  · rw [opNeqSkip_setState]; rfl
  · rw [opReqSkip_setState]; rfl
  · rfl
  · rfl
  · -- 0x8000 family
    split
    · rfl
    · rfl
    · rfl
    · rfl
    · rfl
    · rfl
    · rfl
    · rw [opRsub_setState]; rfl
    · rfl
    · rfl
  · rw [opRneqSkip_setState]; rfl
  · rfl
  · -- 0xB000: Bnnn with the complex-jump option
    cases hcj : e.complexJump <;> rfl
  · rfl
  · exact opDisplay_setState e s _ _ _
  · -- 0xE000 family
    split
    · rw [opKeySkip_setState]; rfl
    · rw [opNkeySkip_setState]; rfl
    · rfl
  · -- 0xF000 family
    split
    · rfl
    · rfl
    · rfl
    · rw [opAddIreg_setState]; rfl
    · rw [opGetKey_setState]; rfl
    · rfl
    · exact opDecimals_setState e s _
    · exact opStore_setState e s _
    · exact opLoad_setState e s _
    · rfl
  · rfl

/-- One fetch-decode-execute cycle commutes with a run-state override. -/
theorem internalStep_setState (e : Emulator) (s : RunState) :
    internalStep (setState e s) = (internalStep e).map (fun r => setState r s) := by
  simp only [internalStep]
  rw [show currInst (setState e s) = currInst e from rfl]
  cases hc : currInst e with
  | error err => rfl
  | ok inst =>
    exact execInst_setState { e with pc := (e.pc + 2) % 65536 } s inst

/-- The cycle loop commutes with a run-state override. -/
theorem stepCycles_setState :
    ∀ (k : Nat) (e : Emulator) (s : RunState),
      stepCycles k (setState e s) = (stepCycles k e).map (fun r => setState r s) := by
  intro k
  induction k with
  | zero => intro e s; rfl
  | succ k ih =>
    intro e s
    simp only [stepCycles]
    rw [internalStep_setState]
    cases h : internalStep e with
    | error err => rfl
    | ok e1 =>
      exact ih e1 s

/-- The timer decrements commute with a run-state override. -/
theorem tickTimers_setState (e : Emulator) (s : RunState) :
    tickTimers (setState e s) = setState (tickTimers e) s := by
  obtain ⟨mF, cF, sS, cJ, sT, fC, me, di, pcv, rI, sk, dT, sndT, rg, ky, rn⟩ := e
  simp only [tickTimers, setState]
  split <;> split <;> rfl

/-- The frame step commutes with a run-state override. -/
theorem step_setState (e : Emulator) (s : RunState) :
    step (setState e s) = (step e).map (fun r => setState r s) := by
  simp only [step]
  rw [tickTimers_setState,
      show (setState (tickTimers e) s).cpf = (tickTimers e).cpf from rfl,
      stepCycles_setState]
  cases h : stepCycles (tickTimers e).cpf.toNat (tickTimers e) with
  | error err => rfl
  | ok e2 => rfl

/-- Claim C9: the frame step never consults the run state — stepping a
machine whose run-state field has been overridden gives exactly the stepped
original machine with the same override (so memory, registers, program
counter, index register, stack, timers, key latch, framebuffer, frame count
and the consumed random stream all agree) — and a successful step leaves the
run-state field exactly as it was. -/
theorem step_ignores_runstate (e : Emulator) (s : RunState) :
    step (setState e s) = (step e).map (fun r => setState r s) ∧
    (∀ e1, step e = .ok e1 → e1.state = e.state) := by
  refine ⟨step_setState e s, fun e1 h => ?_⟩
  have h2 := step_setState e e.state
  rw [show setState e e.state = e from rfl, h] at h2
  simp only [Except.map] at h2
  injection h2 with h3
  rw [h3]
  rfl

/-- Witness for C9: a frame step of the initial machine succeeds and leaves
the run-state field untouched. -/
theorem step_ignores_runstate_wit :
    eRun.state = initEmu.state :=
  (step_ignores_runstate initEmu initEmu.state).2 eRun rfl

/-- Claim C3: every memory access of the interpreter is bounds-checked
against 4096 and an out-of-range address is surfaced as the fatal
`addrOutOfRange` error (the modelled bounds-check panic): the instruction
fetch at the program counter, the `Fx33` writes, the `Fx55` writes, the
`Fx65` reads and the `Dxyn` sprite reads all fail that way; the address is
used as computed, never wrapped or truncated by the access, and a successful
write changes no byte other than the addressed one. -/
theorem memory_accesses_checked :
    (∀ m a, 4096 ≤ a → memRead m a = .error .addrOutOfRange) ∧
    (∀ m a v, 4096 ≤ a → memWrite m a v = .error .addrOutOfRange) ∧
    (∀ m a v m1, memWrite m a v = .ok m1 →
      a < 4096 ∧ m1 a = v ∧ ∀ i, i ≠ a → m1 i = m i) ∧
    (∀ e, 4096 ≤ e.pc → internalStep e = .error .addrOutOfRange) ∧
    (∀ e x, 4096 ≤ e.regI → opDecimals e x = .error .addrOutOfRange) ∧
    (∀ e x, 4096 ≤ e.regI → e.regI < 65536 → opStore e x = .error .addrOutOfRange) ∧
    (∀ e x, 4096 ≤ e.regI → e.regI < 65536 → opLoad e x = .error .addrOutOfRange) ∧
    (∀ e x y n, 1 ≤ n → 4096 ≤ e.regI → e.regI < 65536 →
      opDisplay e x y n = .error .addrOutOfRange) := by
  have hread : ∀ (m : Nat → Nat) (a : Nat), 4096 ≤ a →
      memRead m a = .error .addrOutOfRange := by
    intro m a h
    unfold memRead
    rw [if_neg (by omega)]
  have hwrite : ∀ (m : Nat → Nat) (a v : Nat), 4096 ≤ a →
      memWrite m a v = .error .addrOutOfRange := by
    intro m a v h
    unfold memWrite
    rw [if_neg (by omega)]
  refine ⟨hread, hwrite, ?_, ?_, ?_, ?_, ?_, ?_⟩
  · intro m a v m1 h
    unfold memWrite at h
    by_cases ha : a < 4096
    · rw [if_pos ha] at h
      cases h
      refine ⟨ha, by simp [upd], fun i hi => by simp [upd, hi]⟩
    · rw [if_neg ha] at h
      cases h
  · intro e h
    simp only [internalStep, currInst]
    rw [hread e.mem e.pc h]
  · intro e x h
    simp only [opDecimals]
    rw [hwrite e.mem e.regI (e.regs x / 100) h]
  · intro e x h1 h2
    simp only [opStore, storeLoop]
    rw [show (e.regI + 0) % 65536 = e.regI from by omega,
        hwrite e.mem e.regI (e.regs 0) h1]
  · intro e x h1 h2
    simp only [opLoad, loadLoop]
    rw [show (e.regI + 0) % 65536 = e.regI from by omega,
        hread e.mem e.regI h1]
  · intro e x y n hn h1 h2
    obtain ⟨k, rfl⟩ : ∃ k, n = k + 1 := ⟨n - 1, by omega⟩
    simp only [opDisplay, drawRows]
    rw [if_neg (by omega : ¬ 32 ≤ e.regs y % 32 + 0),
        show (e.regI + 0) % 65536 = e.regI from by omega,
        hread e.mem e.regI h1]

/-- Witness for C3 at concrete machines: a fetch with the program counter at
4096 and index-register-relative accesses with the index register at 4096
all fail with the address error. -/
theorem memory_accesses_checked_wit :
    internalStep eBadPc = .error .addrOutOfRange ∧
    opDecimals eBadI 0 = .error .addrOutOfRange ∧
    opStore eBadI 0 = .error .addrOutOfRange ∧
    opLoad eBadI 0 = .error .addrOutOfRange ∧
    opDisplay eBadI 0 0 1 = .error .addrOutOfRange :=
  ⟨memory_accesses_checked.2.2.2.1 eBadPc (by decide),
   memory_accesses_checked.2.2.2.2.1 eBadI 0 (by decide),
   memory_accesses_checked.2.2.2.2.2.1 eBadI 0 (by decide) (by decide),
   memory_accesses_checked.2.2.2.2.2.2.1 eBadI 0 (by decide) (by decide),
   memory_accesses_checked.2.2.2.2.2.2.2 eBadI 0 0 1 (by decide) (by decide) (by decide)⟩

/-- Claim C4, amended: `00EE` on an empty call stack fails with the
`stackUnderflow` error — the modelled `unwrap` panic, a hard failure distinct
from the unimplemented-instruction condition (which returns an ordinary
`.ok`) — execution does not proceed, and the error aborts all remaining
cycles of the frame; the machine is not transitioned to Paused (no handler
of the cycle writes the run-state field, and no post-failure state exists). -/
theorem ret_empty_stack_underflow (e : Emulator) (k : Nat)
    (hstack : e.stack = [])
    (hpc : e.pc < 4096) (hpc1 : (e.pc + 1) % 65536 < 4096)
    (hhi : e.mem e.pc = 0x00) (hlo : e.mem ((e.pc + 1) % 65536) = 0xEE) :
    internalStep e = .error .stackUnderflow ∧
    stepCycles (k + 1) e = .error .stackUnderflow := by
  have hci : currInst e = .ok 0x00EE := by
    simp only [currInst, memRead]
    rw [if_pos hpc, hhi, if_pos hpc1, hlo]
    rfl
  have hstep : internalStep e = .error .stackUnderflow := by
    simp only [internalStep]
    rw [hci]
    show execInst { e with pc := (e.pc + 2) % 65536 } 0x00EE = _
    show opRet { e with pc := (e.pc + 2) % 65536 } = _
    simp only [opRet]
    have hs2 : ({ e with pc := (e.pc + 2) % 65536 } : Emulator).stack = [] := hstack
    rw [hs2]
  refine ⟨hstep, ?_⟩
  simp only [stepCycles]
  rw [hstep]

/-- Witness for the amended C4 at the concrete running machine `eC4`. -/
theorem ret_empty_stack_underflow_wit :
    internalStep eC4 = .error .stackUnderflow ∧
    stepCycles 1 eC4 = .error .stackUnderflow :=
  ret_empty_stack_underflow eC4 0 (by decide) (by decide) (by decide)
    (by decide) (by decide)

/-- Claim C4, counterexample to the Paused clause: on the concrete running
machine `eC4` the frame step fails with the stack-underflow error; there is
no resulting machine at all, in particular none in the `Paused` state — the
claim that the machine is left Paused is false. -/
theorem ret_empty_stack_not_paused :
    ¬ ∃ e1, step eC4 = Except.ok e1 ∧ e1.state = RunState.Paused := by
  rintro ⟨e1, h, _⟩
  have hx : step eC4 = Except.error EmuError.stackUnderflow := rfl
  rw [hx] at h
  cases h
